import Mathlib

/-!
Shallow embedding of the Clipflow-AI worker queue core
(src/workers-deploy/src/index.js and the two standalone workers in
src/unnamed/part_000, src/unnamed/part_001).

The shared Supabase tables (`video_processing_jobs`, `render_tasks`,
`clip_edits`) are modelled as `List Rec`; `id` is the primary key.  A
Supabase `update ... eq('id', x)` is `updateById`, and a conditional
(compare-and-swap) `update ... eq('id', x) .eq('status', s)` is `casUpdate`.
A `select ... eq/in ... order('created_at', ascending) .limit(1)` is
`selectOldest`.  Timestamps are `Nat`.
-/

namespace Clipflow

/-- Record statuses used across the three tables.  `video_processing_jobs`
uses ready/processing/done/failed; `render_tasks` uses
queued/rendering/done/failed; `clip_edits` uses queued/processing/done/failed. -/
inductive Status where
  | ready
  | queued
  | processing
  | rendering
  | done
  | failed
deriving DecidableEq, Repr

/-- One row of a work table.  Fields are the union of the columns the worker
code reads or writes: `jobId` is `render_tasks.job_id` (the parent job, 0 for
job rows themselves), `jobType` is `video_processing_jobs.job_type`,
`worker_id` is the owner column, `clip_url` is `render_tasks.input.clip_url`,
`result` is `result_url` / `output.url` / `output_url`. -/
structure Rec where
  id : Nat
  jobId : Nat
  jobType : String
  status : Status
  created_at : Nat
  worker_id : Option String
  attempts : Nat
  clip_url : Option String
  error : Option String
  result : Option String
deriving DecidableEq, Repr

/-- First row with the given primary key (`id` is unique in the store). -/
def findRec (jid : Nat) : List Rec → Option Rec
  | [] => none
  | r :: rs => if r.id = jid then some r else findRec jid rs

/-- Status column of the row with key `jid`. -/
def statusOf (jid : Nat) (l : List Rec) : Option Status :=
  (findRec jid l).map (fun r => r.status)

/-- Attempts column of the row with key `jid`. -/
def attemptsOf (jid : Nat) (l : List Rec) : Option Nat :=
  (findRec jid l).map (fun r => r.attempts)

/-- Owner (worker_id) column of the row with key `jid`. -/
def workerOf (jid : Nat) (l : List Rec) : Option (Option String) :=
  (findRec jid l).map (fun r => r.worker_id)

/-- Error column of the row with key `jid`. -/
def errorOf (jid : Nat) (l : List Rec) : Option (Option String) :=
  (findRec jid l).map (fun r => r.error)

/-- Unconditional `update(...).eq('id', jid)`: rewrite the row with key `jid`. -/
def updateById (jid : Nat) (f : Rec → Rec) : List Rec → List Rec
  | [] => []
  | r :: rs => if r.id = jid then f r :: rs else r :: updateById jid f rs

/-- Conditional `update(...).eq('id', jid).eq('status', expected).select().single()`:
the optimistic-lock / compare-and-swap write.  Returns the updated row when the
row still had the expected status at write time (`some`), and `none` together
with the unchanged store when the condition no longer matched (zero affected
rows: the race was lost). -/
def casUpdate (jid : Nat) (expected : Status) (f : Rec → Rec) :
    List Rec → Option Rec × List Rec
  | [] => (none, [])
  | r :: rs =>
    if r.id = jid ∧ r.status = expected then (some (f r), f r :: rs)
    else
      let p := casUpdate jid expected f rs
      (p.1, r :: p.2)

/-- `order('created_at', ascending: true).limit(1)` tie-breaking by store
order: of two rows, keep the strictly older one. -/
def olderOf (a b : Rec) : Rec :=
  if b.created_at < a.created_at then b else a

/-- `select('*').<filter>.order('created_at', ascending).limit(1)`: the single
oldest row satisfying the filter, if any. -/
def selectOldest (p : Rec → Bool) (l : List Rec) : Option Rec :=
  match l.filter p with
  | [] => none
  | r :: rs => some (rs.foldl olderOf r)

/-- Shorthand for the terminal-failure write `update({status:'failed', error: msg})`. -/
def markFailed (jid : Nat) (msg : String) : List Rec → List Rec :=
  updateById jid (fun r => { r with status := .failed, error := some msg })

/-- Shorthand for the success write `update({status:'done', result_url/output: url})`. -/
def markDone (jid : Nat) (url : String) : List Rec → List Rec :=
  updateById jid (fun r => { r with status := .done, result := some url })

/-- Eligibility filter of `claimJob` (src/unnamed/part_000 lines 35-41):
status 'ready' and job_type in ['discover','long_form']. -/
def eligJob (r : Rec) : Bool :=
  r.status == .ready && (r.jobType == "discover" || r.jobType == "long_form")

/-- Eligibility filter of `claimAiShortJob` (index.js 1365-1371). -/
def eligAiShort (r : Rec) : Bool :=
  r.status == .ready && r.jobType == "ai_short"

/-- Eligibility filter of `claimDiscoverJob` (index.js 1714-1720). -/
def eligDiscover (r : Rec) : Bool :=
  r.status == .ready && r.jobType == "discover"

/-- Eligibility filter of `claimRenderTaskFallback` (index.js 578-583). -/
def eligRenderTask (r : Rec) : Bool :=
  r.status == .queued

/-- Eligibility filter of `claimEditTaskFallback` (index.js 786-791). -/
def eligEdit (r : Rec) : Bool :=
  r.status == .queued

/-- `claimJob` of the standalone discover worker (src/unnamed/part_000,
lines 33-69): fetch the oldest ready discover/long_form job, then claim it by
the conditional update `{status:'processing'} where id = job.id and
status = 'ready'`.  Fetch errors and a lost race both yield `null`. -/
def claimJob (jobs : List Rec) : Option Rec × List Rec :=
  match selectOldest eligJob jobs with
  | none => (none, jobs)
  | some j =>
    let p := casUpdate j.id .ready (fun r => { r with status := .processing }) jobs
    match p.1 with
    | some c => (some c, p.2)
    | none => (none, jobs)

/-- `claimAiShortJob` (index.js 1364-1392): oldest ready `ai_short` job,
claimed by the conditional update `{status:'processing'}` — only the status
column is written. -/
def claimAiShortJob (jobs : List Rec) : Option Rec × List Rec :=
  match selectOldest eligAiShort jobs with
  | none => (none, jobs)
  | some j =>
    let p := casUpdate j.id .ready (fun r => { r with status := .processing }) jobs
    match p.1 with
    | some c => (some c, p.2)
    | none => (none, jobs)

/-- `claimDiscoverJob` (index.js 1713-1741): oldest ready `discover` job,
claimed by the conditional update `{status:'processing'}`. -/
def claimDiscoverJob (jobs : List Rec) : Option Rec × List Rec :=
  match selectOldest eligDiscover jobs with
  | none => (none, jobs)
  | some j =>
    let p := casUpdate j.id .ready (fun r => { r with status := .processing }) jobs
    match p.1 with
    | some c => (some c, p.2)
    | none => (none, jobs)

/-- `claimRenderTaskFallback` (index.js 576-609), the in-repo realization of
the render claim (`claim_render_task` is a server-side routine outside this
repository; on its absence the worker uses this fallback, index.js 564-571).
The conditional update writes `{status:'rendering', worker_id: workerId,
attempts: task.attempts + 1}` — `task` being the fetched candidate — guarded
by `status = 'queued'`. -/
def claimRenderTaskFallback (wid : String) (tasks : List Rec) : Option Rec × List Rec :=
  match selectOldest eligRenderTask tasks with
  | none => (none, tasks)
  | some t =>
    let p := casUpdate t.id .queued
      (fun r => { r with status := .rendering, worker_id := some wid,
                         attempts := t.attempts + 1 }) tasks
    match p.1 with
    | some c => (some c, p.2)
    | none => (none, tasks)

/-- `claimEditTaskFallback` (index.js 785-812): oldest queued clip edit,
claimed by the conditional update `{status:'processing'}`. -/
def claimEditTaskFallback (edits : List Rec) : Option Rec × List Rec :=
  match selectOldest eligEdit edits with
  | none => (none, edits)
  | some e =>
    let p := casUpdate e.id .queued (fun r => { r with status := .processing }) edits
    match p.1 with
    | some c => (some c, p.2)
    | none => (none, edits)

/-- Outcome of the delegated external processing chain (download, transcode,
upload): succeeds with a public URL or throws with a message. -/
inductive ROutcome where
  | ok (url : String)
  | err (msg : String)
deriving DecidableEq, Repr

/-- `failTask` (index.js 738-757): mark the render task failed with the error
message, and mark its parent job failed with the same error. -/
def failTask (t : Rec) (msg : String) (tasks jobs : List Rec) : List Rec × List Rec :=
  ( updateById t.id (fun r => { r with status := .failed, error := some msg }) tasks,
    updateById t.jobId (fun r => { r with status := .failed, error := some msg }) jobs )

/-- `processRenderTask` (index.js 611-736).  Missing `input.clip_url` is the
validation-class failure handled before any work (617-620).  On success the
task and its parent job are marked done with the public URL (694-710).  On a
thrown (retryable) error, a task with `attempts < 3` is re-queued by the
status-only write `{status:'queued'}` (726-731); otherwise `failTask` runs. -/
def processRenderTask (t : Rec) (o : ROutcome) (tasks jobs : List Rec) :
    List Rec × List Rec :=
  match t.clip_url with
  | none => failTask t "No clip_url provided in task input" tasks jobs
  | some _ =>
    match o with
    | .ok url =>
      ( updateById t.id (fun r => { r with status := .done, result := some url }) tasks,
        updateById t.jobId (fun r => { r with status := .done, result := some url }) jobs )
    | .err msg =>
      if t.attempts < 3 then
        (updateById t.id (fun r => { r with status := .queued }) tasks, jobs)
      else
        failTask t msg tasks jobs

/-- `processEditTask` (index.js 887-1162): success marks the edit done with
the output URL; any caught error marks it failed with the message.  No retry
path exists for edits; `currentJobId` is never touched. -/
def processEditTask (e : Rec) (o : ROutcome) (edits : List Rec) : List Rec :=
  match o with
  | .ok url => markDone e.id url edits
  | .err msg => markFailed e.id msg edits

/-- `processJob` of the standalone discover worker (src/unnamed/part_000,
lines 71-125): success marks the job done with the serialized result; any
caught error marks it failed with the message — there is no retry path. -/
def processJob (j : Rec) (o : Except String String) (jobs : List Rec) : List Rec :=
  match o with
  | .ok resultData => markDone j.id resultData jobs
  | .error msg => markFailed j.id msg jobs

/-- `processDiscoverJob` (index.js 388-552).  Its second component is the
sequence of assignments the handler makes to the module-level `currentJobId`
variable: set to the job id on entry (line 390) and cleared on both the
success exit (538) and the error exit (550). -/
def processDiscoverJob (j : Rec) (o : Except String Unit) (jobs : List Rec) :
    List Rec × List (Option Nat) :=
  match o with
  | .ok _ =>
    (updateById j.id (fun r => { r with status := .done }) jobs, [some j.id, none])
  | .error msg => (markFailed j.id msg jobs, [some j.id, none])

/-- Per-attempt outcome of the AI-short processing body (index.js 1412-1647):
success with the uploaded URL, or a thrown error whose message is classified
as a validation error when it includes 'Invalid job payload' or
'Missing script' (1641-1642). -/
inductive AiOutcome where
  | ok (url : String)
  | err (isValidation : Bool) (msg : String)
deriving DecidableEq, Repr

/-- `maxAttempts` of `processAiShortJob` (index.js 1395). -/
def maxAttempts : Nat := 3

/-- The failure text written by `processAiShortJob` (index.js 1654):
the last failure reason, annotated with the attempt count when
`attempt > 1`. -/
def aiAnnot (msg : String) (attempt : Nat) : String :=
  if 1 < attempt then msg ++ " (after " ++ toString attempt ++ " attempts)" else msg

/-- The timed-retry step of `processAiShortJob` (index.js 1660-1702): revert
the job to ready (1662-1665), wait out the 5s backoff — during which other
workers may act on the store, modelled by `interfere` — then attempt to
reclaim the same record with the conditional update
`{status:'processing'} where id = job.id and status = 'ready'` (1669-1675).
If the reclaim returns no row, inspect the record's current status
(1678-1682): `processing` means another worker claimed it and `done`/`failed`
means it already resolved, so abstain; any other state is unexpected and the
job is defensively marked failed (1688-1696). -/
def aiShortRetryReclaim (attempt : Nat) (jid : Nat)
    (interfere : List Rec → List Rec) (jobs : List Rec) : Option Rec × List Rec :=
  let jobs1 := updateById jid (fun r => { r with status := .ready }) jobs
  let jobs2 := interfere jobs1
  let p := casUpdate jid .ready (fun r => { r with status := .processing }) jobs2
  match p.1 with
  | some c => (some c, p.2)
  | none =>
    match statusOf jid jobs2 with
    | some .processing => (none, jobs2)
    | some .done => (none, jobs2)
    | some .failed => (none, jobs2)
    | _ =>
      (none, markFailed jid
        ("Worker retry failed: job in unexpected state after " ++
          toString attempt ++ " attempts") jobs2)

/-- The attempt loop of `processAiShortJob` (index.js 1402-1703), driven by
one external `AiOutcome` per attempt and one interference function per
backoff window.  Returns the final `video_processing_jobs` store and the
number of attempts performed.  Success writes done with the result URL
(1618-1629); a validation error or `attempt ≥ maxAttempts` writes failed with
the annotated message (1649-1658); otherwise the timed-retry step runs and,
when its reclaim wins, the loop continues with `attempt + 1`. -/
def processAiShortJobAux (jid : Nat) (attempt : Nat) (outcomes : List AiOutcome)
    (interfs : List (List Rec → List Rec)) (jobs : List Rec) : List Rec × Nat :=
  match outcomes with
  | [] => (jobs, attempt - 1)
  | o :: rest =>
    match o with
    | .ok url => (markDone jid url jobs, attempt)
    | .err isVal msg =>
      if isVal || decide (maxAttempts ≤ attempt) then
        (markFailed jid (aiAnnot msg attempt) jobs, attempt)
      else
        let p := aiShortRetryReclaim attempt jid (interfs.headD id) jobs
        match p.1 with
        | some _ => processAiShortJobAux jid (attempt + 1) rest interfs.tail p.2
        | none => (p.2, attempt)

/-- `processAiShortJob` (index.js 1394-1707).  The third component is the
sequence of assignments to `currentJobId`: set on entry (1399) and cleared in
the `finally` block on every exit path (1705). -/
def processAiShortJob (j : Rec) (outcomes : List AiOutcome)
    (interfs : List (List Rec → List Rec)) (jobs : List Rec) :
    List Rec × Nat × List (Option Nat) :=
  let p := processAiShortJobAux j.id 1 outcomes interfs jobs
  (p.1, p.2, [some j.id, none])

/-- Which queue the poll tick claimed from. -/
inductive ClaimKind where
  | renderT (t : Rec)
  | editT (e : Rec)
  | aiJob (j : Rec)
  | discovery (j : Rec)
deriving DecidableEq, Repr

/-- Result of one poll tick: the at-most-one claimed item, the three table
states, and the tick's assignments to `currentJobId`. -/
structure TickResult where
  claimed : Option ClaimKind
  tasks : List Rec
  edits : List Rec
  jobs : List Rec
  trace : List (Option Nat)

/-- `pollForWork` (index.js 1747-1789): each tick attempts claims in the
fixed priority order render tasks, edit tasks, AI-short jobs, discover jobs;
the first successful claim is processed to completion and the tick returns.
The render claim is realized by its in-repo fallback form. -/
def pollForWork (wid : String) (renv eenv : ROutcome) (aiOut : List AiOutcome)
    (aiInt : List (List Rec → List Rec)) (denv : Except String Unit)
    (tasks edits jobs : List Rec) : TickResult :=
  let cr := claimRenderTaskFallback wid tasks
  match cr.1 with
  | some t =>
    let p := processRenderTask t renv cr.2 jobs
    ⟨some (.renderT t), p.1, edits, p.2, []⟩
  | none =>
    let ce := claimEditTaskFallback edits
    match ce.1 with
    | some e => ⟨some (.editT e), tasks, processEditTask e eenv ce.2, jobs, []⟩
    | none =>
      let ca := claimAiShortJob jobs
      match ca.1 with
      | some j =>
        let p := processAiShortJob j aiOut aiInt ca.2
        ⟨some (.aiJob j), tasks, edits, p.1, p.2.2⟩
      | none =>
        let cd := claimDiscoverJob jobs
        match cd.1 with
        | some j =>
          let p := processDiscoverJob j denv cd.2
          ⟨some (.discovery j), tasks, edits, p.1, p.2⟩
        | none => ⟨none, tasks, edits, jobs, []⟩

/-- One render-queue step of a worker: claim (fallback form) then process.
Used to state the attempts invariant over the cited operations. -/
def renderTick (wid : String) (o : ROutcome) (tasks jobs : List Rec) :
    List Rec × List Rec :=
  let cr := claimRenderTaskFallback wid tasks
  match cr.1 with
  | none => (tasks, jobs)
  | some c => processRenderTask c o cr.2 jobs

/-- The SIGTERM release step (index.js 41-55): when a `currentJobId` is held,
issue the single conditional update `{status:'ready'} where id = currentJobId
and status = 'processing'`. -/
def sigtermRelease (cur : Option Nat) (jobs : List Rec) : List Rec :=
  match cur with
  | none => jobs
  | some jid => (casUpdate jid .processing (fun r => { r with status := .ready }) jobs).2

/-- Sample ready `ai_short` job (fresh: attempts 0, no owner). -/
def jobA : Rec :=
  { id := 7, jobId := 0, jobType := "ai_short", status := .ready, created_at := 5,
    worker_id := none, attempts := 0, clip_url := none, error := none, result := none }

/-- Sample ready `discover` job. -/
def jobB : Rec :=
  { id := 8, jobId := 0, jobType := "discover", status := .ready, created_at := 9,
    worker_id := none, attempts := 0, clip_url := none, error := none, result := none }

/-- Sample fresh queued render task, created at time 3. -/
def taskA : Rec :=
  { id := 1, jobId := 20, jobType := "render", status := .queued, created_at := 3,
    worker_id := none, attempts := 0, clip_url := some "http://clip/a", error := none,
    result := none }

/-- Sample fresh queued render task, created later (time 4). -/
def taskB : Rec :=
  { id := 2, jobId := 21, jobType := "render", status := .queued, created_at := 4,
    worker_id := none, attempts := 0, clip_url := some "http://clip/b", error := none,
    result := none }

/-- Sample render task as stored right after a first claim by worker w-1:
rendering, owned, attempts 1. -/
def taskClaimed : Rec :=
  { id := 1, jobId := 20, jobType := "render", status := .rendering, created_at := 3,
    worker_id := some "w-1", attempts := 1, clip_url := some "http://clip/a",
    error := none, result := none }

/-- Sample `ai_short` job as stored right after its claim (processing, still
attempts 0 — the claim writes only the status). -/
def jobAClaimed : Rec :=
  { id := 7, jobId := 0, jobType := "ai_short", status := .processing, created_at := 5,
    worker_id := none, attempts := 0, clip_url := none, error := none, result := none }

/-- Sample `ai_short` job row after another worker resolved it (done). -/
def jobDone7 : Rec :=
  { id := 7, jobId := 0, jobType := "ai_short", status := .done, created_at := 5,
    worker_id := none, attempts := 0, clip_url := none, error := none,
    result := some "http://out" }

/-- Sample claimed render task whose input is missing `clip_url` (the
validation-class failure): first attempt, so attempts is 1 after the claim. -/
def taskNoClip : Rec :=
  { id := 3, jobId := 22, jobType := "render", status := .rendering, created_at := 6,
    worker_id := some "w-1", attempts := 1, clip_url := none, error := none,
    result := none }

/-!
Interleaving model of the claim race.

The fallback claim forms (`claimJob`, `claimAiShortJob`, `claimDiscoverJob`,
`claimRenderTaskFallback`, `claimEditTaskFallback`) all consist of two store
round-trips: a fetch of one candidate row, then an atomic conditional update
guarded by the expected status.  For C concurrent callers racing for one
ready record, an execution is an arbitrary interleaving of these per-caller
events; the store serializes the individual round-trips.  `CallerPhase`
records how far one caller has come, and `raceStep s i` lets caller `i`
perform its next event against the shared record.
-/

/-- Progress of one claim caller: not yet fetched; fetched, remembering
whether a candidate row came back (`saw true` means the record still read as
ready, src/unnamed/part_000 lines 35-50); or returned, with `finished true`
exactly when the conditional update affected the row (lines 55-66). -/
inductive CallerPhase where
  | idle
  | saw (r : Bool)
  | finished (won : Bool)
deriving DecidableEq, Repr

/-- Phase of caller `i`. -/
def getPhase : List CallerPhase → Nat → Option CallerPhase
  | [], _ => none
  | p :: _, 0 => some p
  | _ :: ps, n + 1 => getPhase ps n

/-- Replace caller `i`'s phase. -/
def setPhase : List CallerPhase → Nat → CallerPhase → List CallerPhase
  | [], _, _ => []
  | _ :: ps, 0, q => q :: ps
  | p :: ps, n + 1, q => p :: setPhase ps n q

/-- Shared state of the race: the contested record's status column and every
caller's progress. -/
structure RaceState where
  recStatus : Status
  callers : List CallerPhase
deriving DecidableEq, Repr

/-- Caller `i` performs its next store round-trip.  An idle caller fetches
(observing whether the record is still ready); a caller whose fetch returned
no candidate gives up with no record; a caller holding a candidate issues the
conditional update, which succeeds — flipping the record to processing — only
if the record is still ready at that instant. -/
def raceStep (s : RaceState) (i : Nat) : RaceState :=
  match getPhase s.callers i with
  | none => s
  | some .idle =>
    { s with callers := setPhase s.callers i (.saw (s.recStatus == .ready)) }
  | some (.saw true) =>
    if s.recStatus == .ready then
      { recStatus := .processing, callers := setPhase s.callers i (.finished true) }
    else
      { s with callers := setPhase s.callers i (.finished false) }
  | some (.saw false) =>
    { s with callers := setPhase s.callers i (.finished false) }
  | some (.finished _) => s

/-- Run an interleaving: the schedule lists which caller acts at each instant. -/
def raceRun (s : RaceState) (sched : List Nat) : RaceState :=
  sched.foldl raceStep s

/-- One if this caller observed a successful claim, zero otherwise. -/
def phaseWin (p : CallerPhase) : Nat :=
  if p = .finished true then 1 else 0

/-- Number of callers that observed a successful claim. -/
def winners : List CallerPhase → Nat
  | [] => 0
  | p :: ps => phaseWin p + winners ps

/-- Initial race state: one ready record, `C` callers yet to fetch. -/
def raceInit (C : Nat) : RaceState :=
  { recStatus := .ready, callers := List.replicate C .idle }

/-- Invariant of the claim race: while the record is still ready nobody has
finished (let alone won), and once it is processing there is exactly one
winner, forever. -/
def RaceInv (s : RaceState) : Prop :=
  (s.recStatus = .ready ∧ winners s.callers = 0 ∧
    ∀ q ∈ s.callers, q = .idle ∨ q = .saw true)
  ∨ (s.recStatus = .processing ∧ winners s.callers = 1)

/-- Invariant of the render-task table: primary keys are unique, no row's
attempts exceed the maximum of 3, and a queued (claimable) row still has a
claim left in its budget. -/
def InvR (l : List Rec) : Prop :=
  (l.map (fun r => r.id)).Nodup ∧
  ∀ r ∈ l, r.attempts ≤ 3 ∧ (r.status = .queued → r.attempts < 3)

lemma getPhase_mem {q : CallerPhase} :
    ∀ (l : List CallerPhase) (i : Nat), getPhase l i = some q → q ∈ l := by
  intro l
  induction l with
  | nil => intro i h; simp [getPhase] at h
  | cons p ps ih =>
    intro i h
    cases i with
    | zero =>
      simp [getPhase] at h
      simp [h]
    | succ n =>
      simp only [getPhase] at h
      exact List.mem_cons_of_mem _ (ih n h)

lemma mem_setPhase {q p : CallerPhase} :
    ∀ (l : List CallerPhase) (i : Nat), q ∈ setPhase l i p → q ∈ l ∨ q = p := by
  intro l
  induction l with
  | nil => intro i h; simp [setPhase] at h
  | cons r rs ih =>
    intro i h
    cases i with
    | zero =>
      simp only [setPhase] at h
      rcases List.mem_cons.mp h with h' | h'
      · right; exact h'
      · left; exact List.mem_cons_of_mem _ h'
    | succ n =>
      simp only [setPhase] at h
      rcases List.mem_cons.mp h with h' | h'
      · left; simp [h']
      · rcases ih n h' with h2 | h2
        · left; exact List.mem_cons_of_mem _ h2
        · right; exact h2

lemma winners_setPhase {q : CallerPhase} :
    ∀ (l : List CallerPhase) (i : Nat), getPhase l i = some q →
      ∀ p, winners (setPhase l i p) + phaseWin q = winners l + phaseWin p := by
  intro l
  induction l with
  | nil => intro i h; simp [getPhase] at h
  | cons r rs ih =>
    intro i h p
    cases i with
    | zero =>
      simp [getPhase] at h
      subst h
      simp [setPhase, winners]
      omega
    | succ n =>
      simp only [getPhase] at h
      simp only [setPhase, winners]
      have := ih n h p
      omega

lemma length_setPhase (p : CallerPhase) :
    ∀ (l : List CallerPhase) (i : Nat), (setPhase l i p).length = l.length := by
  intro l
  induction l with
  | nil => intro i; simp [setPhase]
  | cons r rs ih =>
    intro i
    cases i with
    | zero => simp [setPhase]
    | succ n => simp [setPhase, ih n]

lemma raceStep_inv {s : RaceState} (i : Nat) (h : RaceInv s) :
    RaceInv (raceStep s i) := by
  cases hg : getPhase s.callers i with
  | none => simpa [raceStep, hg] using h
  | some q =>
    cases q with
    | idle =>
      have hw := winners_setPhase s.callers i hg (.saw (s.recStatus == .ready))
      simp [phaseWin] at hw
      rcases h with ⟨h1, h2, h3⟩ | ⟨h1, h2⟩
      · left
        simp only [raceStep, hg]
        refine ⟨h1, by omega, ?_⟩
        intro x hx
        rcases mem_setPhase _ _ hx with hx' | hx'
        · exact h3 x hx'
        · right; rw [hx', h1]; simp
      · right
        simp only [raceStep, hg]
        exact ⟨h1, by omega⟩
    | saw b =>
      cases b with
      | true =>
        rcases h with ⟨h1, h2, h3⟩ | ⟨h1, h2⟩
        · have hw := winners_setPhase s.callers i hg (.finished true)
          simp [phaseWin] at hw
          right
          have hr : (s.recStatus == Status.ready) = true := by simp [h1]
          simp only [raceStep, hg]
          rw [if_pos hr]
          refine ⟨rfl, ?_⟩
          show winners (setPhase s.callers i (.finished true)) = 1
          omega
        · have hw := winners_setPhase s.callers i hg (.finished false)
          simp [phaseWin] at hw
          right
          have hr : ¬ ((s.recStatus == Status.ready) = true) := by simp [h1]
          simp only [raceStep, hg]
          rw [if_neg hr]
          refine ⟨h1, ?_⟩
          show winners (setPhase s.callers i (.finished false)) = 1
          omega
      | false =>
        rcases h with ⟨h1, h2, h3⟩ | ⟨h1, h2⟩
        · exact absurd (h3 _ (getPhase_mem s.callers i hg)) (by simp)
        · have hw := winners_setPhase s.callers i hg (.finished false)
          simp [phaseWin] at hw
          right
          simp only [raceStep, hg]
          exact ⟨h1, by omega⟩
    | finished b =>
      simpa [raceStep, hg] using h

lemma raceStep_length (s : RaceState) (i : Nat) :
    (raceStep s i).callers.length = s.callers.length := by
  cases hg : getPhase s.callers i with
  | none => simp [raceStep, hg]
  | some q =>
    cases q with
    | idle => simp [raceStep, hg, length_setPhase]
    | saw b =>
      cases b with
      | true =>
        by_cases hr : (s.recStatus == Status.ready) = true
        · simp only [raceStep, hg]
          rw [if_pos hr]
          simp [length_setPhase]
        · simp only [raceStep, hg]
          rw [if_neg hr]
          simp [length_setPhase]
      | false => simp [raceStep, hg, length_setPhase]
    | finished b => simp [raceStep, hg]

lemma raceRun_inv (sched : List Nat) :
    ∀ {s : RaceState}, RaceInv s → RaceInv (raceRun s sched) := by
  induction sched with
  | nil => intro s h; exact h
  | cons i rest ih =>
    intro s h
    exact ih (raceStep_inv i h)

lemma raceRun_length (sched : List Nat) :
    ∀ (s : RaceState), (raceRun s sched).callers.length = s.callers.length := by
  induction sched with
  | nil => intro s; rfl
  | cons i rest ih =>
    intro s
    have := ih (raceStep s i)
    simpa [raceRun, raceStep_length] using this

lemma winners_replicate_idle : ∀ C : Nat, winners (List.replicate C .idle) = 0 := by
  intro C
  induction C with
  | zero => rfl
  | succ n ih => simp [List.replicate, winners, phaseWin, ih]

lemma raceInit_inv (C : Nat) : RaceInv (raceInit C) := by
  left
  refine ⟨rfl, winners_replicate_idle C, ?_⟩
  intro q hq
  left
  exact List.eq_of_mem_replicate hq

lemma findRec_mem {jid : Nat} {r : Rec} :
    ∀ {l : List Rec}, findRec jid l = some r → r ∈ l ∧ r.id = jid := by
  intro l
  induction l with
  | nil => intro h; simp [findRec] at h
  | cons x xs ih =>
    intro h
    by_cases hx : x.id = jid
    · rw [findRec, if_pos hx] at h
      cases h
      exact ⟨List.mem_cons_self _ _, hx⟩
    · rw [findRec, if_neg hx] at h
      obtain ⟨h1, h2⟩ := ih h
      exact ⟨List.mem_cons_of_mem _ h1, h2⟩

lemma findRec_of_mem_nodup {r : Rec} :
    ∀ {l : List Rec}, (l.map (fun x => x.id)).Nodup → r ∈ l →
      findRec r.id l = some r := by
  intro l
  induction l with
  | nil => intro _ h; simp at h
  | cons x xs ih =>
    intro hnd hm
    rcases List.mem_cons.mp hm with h | h
    · rw [h, findRec, if_pos rfl]
    · by_cases hx : x.id = r.id
      · exfalso
        have hinj := List.inj_on_of_nodup_map hnd
        have : x = r := hinj (List.mem_cons_self _ _) (List.mem_cons_of_mem _ h) hx
        rw [List.map_cons, List.nodup_cons] at hnd
        exact hnd.1 (by rw [this]; exact List.mem_map_of_mem _ h)
      · rw [findRec, if_neg hx]
        rw [List.map_cons, List.nodup_cons] at hnd
        exact ih hnd.2 h

lemma findRec_updateById {f : Rec → Rec} (hid : ∀ r, (f r).id = r.id)
    (jid tgt : Nat) :
    ∀ (l : List Rec), findRec jid (updateById tgt f l) =
      if jid = tgt then (findRec jid l).map f else findRec jid l := by
  intro l
  induction l with
  | nil => simp [findRec, updateById]
  | cons x xs ih =>
    by_cases hx : x.id = tgt
    · rw [updateById, if_pos hx]
      by_cases hj : jid = tgt
      · rw [if_pos hj]
        rw [findRec, if_pos (by rw [hid, hx, hj])]
        rw [findRec, if_pos (by rw [hx, hj])]
        rfl
      · rw [if_neg hj]
        rw [findRec, if_neg (by rw [hid]; intro hc; exact hj (hc ▸ hx ▸ rfl))]
        rw [findRec, if_neg (fun hc => hj (by rw [← hc, hx]))]
    · rw [updateById, if_neg hx]
      by_cases hxj : x.id = jid
      · have hj : ¬ jid = tgt := fun hc => hx (by rw [hxj, hc])
        rw [if_neg hj]
        rw [findRec, if_pos hxj, findRec, if_pos hxj]
      · rw [findRec, if_neg hxj, findRec, if_neg hxj, ih]

lemma casUpdate_some {jid : Nat} {exp : Status} {f : Rec → Rec} {c : Rec} :
    ∀ {l : List Rec}, (casUpdate jid exp f l).1 = some c →
      ∃ r, r ∈ l ∧ r.id = jid ∧ r.status = exp ∧ c = f r := by
  intro l
  induction l with
  | nil => intro h; simp [casUpdate] at h
  | cons x xs ih =>
    intro h
    by_cases hx : x.id = jid ∧ x.status = exp
    · rw [casUpdate, if_pos hx] at h
      cases h
      exact ⟨x, List.mem_cons_self _ _, hx.1, hx.2, rfl⟩
    · rw [casUpdate, if_neg hx] at h
      obtain ⟨r, h1, h2, h3, h4⟩ := ih h
      exact ⟨r, List.mem_cons_of_mem _ h1, h2, h3, h4⟩

lemma casUpdate_none_snd {jid : Nat} {exp : Status} {f : Rec → Rec} :
    ∀ {l : List Rec}, (casUpdate jid exp f l).1 = none →
      (casUpdate jid exp f l).2 = l := by
  intro l
  induction l with
  | nil => intro _; rfl
  | cons x xs ih =>
    intro h
    by_cases hx : x.id = jid ∧ x.status = exp
    · rw [casUpdate, if_pos hx] at h
      cases h
    · rw [casUpdate, if_neg hx] at h ⊢
      simp only at h ⊢
      rw [ih h]

lemma casUpdate_isSome {jid : Nat} {exp : Status} {f : Rec → Rec} :
    ∀ {l : List Rec}, (∃ r ∈ l, r.id = jid ∧ r.status = exp) →
      ((casUpdate jid exp f l).1).isSome := by
  intro l
  induction l with
  | nil => intro h; simp at h
  | cons x xs ih =>
    intro h
    by_cases hx : x.id = jid ∧ x.status = exp
    · rw [casUpdate, if_pos hx]
      rfl
    · rw [casUpdate, if_neg hx]
      obtain ⟨r, hm, hr⟩ := h
      rcases List.mem_cons.mp hm with he | he
      · exact absurd (he ▸ hr) hx
      · exact ih ⟨r, he, hr⟩

lemma casUpdate_fst_mem_snd {jid : Nat} {exp : Status} {f : Rec → Rec} {c : Rec} :
    ∀ {l : List Rec}, (casUpdate jid exp f l).1 = some c →
      c ∈ (casUpdate jid exp f l).2 := by
  intro l
  induction l with
  | nil => intro h; simp [casUpdate] at h
  | cons x xs ih =>
    intro h
    by_cases hx : x.id = jid ∧ x.status = exp
    · rw [casUpdate, if_pos hx] at h ⊢
      cases h
      exact List.mem_cons_self _ _
    · rw [casUpdate, if_neg hx] at h ⊢
      simp only at h ⊢
      exact List.mem_cons_of_mem _ (ih h)

lemma findRec_casUpdate {f : Rec → Rec} (hid : ∀ r, (f r).id = r.id)
    (jid tgt : Nat) (exp : Status) :
    ∀ (l : List Rec), findRec jid (casUpdate tgt exp f l).2 =
      if jid = tgt then
        (findRec jid l).map (fun r => if r.status = exp then f r else r)
      else findRec jid l := by
  intro l
  induction l with
  | nil => simp [findRec, casUpdate]
  | cons x xs ih =>
    by_cases hx : x.id = tgt ∧ x.status = exp
    · rw [casUpdate, if_pos hx]
      by_cases hj : jid = tgt
      · rw [if_pos hj]
        rw [findRec, if_pos (by rw [hid, hx.1, hj])]
        rw [findRec, if_pos (by rw [hx.1, hj])]
        simp [hx.2]
      · rw [if_neg hj]
        rw [findRec, if_neg (by rw [hid]; intro hc; exact hj (by rw [← hc, hx.1]))]
        rw [findRec, if_neg (fun hc => hj (by rw [← hc, hx.1]))]
    · rw [casUpdate, if_neg hx]
      simp only
      by_cases hxj : x.id = jid
      · rw [findRec, if_pos hxj, findRec, if_pos hxj]
        by_cases hj : jid = tgt
        · rw [if_pos hj]
          have hst : ¬ x.status = exp := fun hc => hx ⟨by rw [hxj, hj], hc⟩
          simp [hst]
        · rw [if_neg hj]
      · rw [findRec, if_neg hxj, findRec, if_neg hxj, ih]

lemma mem_updateById {f : Rec → Rec} {tgt : Nat} {x : Rec} :
    ∀ {l : List Rec}, x ∈ updateById tgt f l →
      x ∈ l ∨ ∃ r, r ∈ l ∧ r.id = tgt ∧ x = f r := by
  intro l
  induction l with
  | nil => intro h; simp [updateById] at h
  | cons y ys ih =>
    intro h
    by_cases hy : y.id = tgt
    · rw [updateById, if_pos hy] at h
      rcases List.mem_cons.mp h with h' | h'
      · exact Or.inr ⟨y, List.mem_cons_self _ _, hy, h'⟩
      · exact Or.inl (List.mem_cons_of_mem _ h')
    · rw [updateById, if_neg hy] at h
      rcases List.mem_cons.mp h with h' | h'
      · exact Or.inl (by rw [h']; exact List.mem_cons_self _ _)
      · rcases ih h' with h2 | ⟨r, h2, h3, h4⟩
        · exact Or.inl (List.mem_cons_of_mem _ h2)
        · exact Or.inr ⟨r, List.mem_cons_of_mem _ h2, h3, h4⟩

lemma mem_casUpdate_snd {f : Rec → Rec} {tgt : Nat} {exp : Status} {x : Rec} :
    ∀ {l : List Rec}, x ∈ (casUpdate tgt exp f l).2 →
      x ∈ l ∨ ∃ r, r ∈ l ∧ r.id = tgt ∧ r.status = exp ∧ x = f r := by
  intro l
  induction l with
  | nil => intro h; simp [casUpdate] at h
  | cons y ys ih =>
    intro h
    by_cases hy : y.id = tgt ∧ y.status = exp
    · rw [casUpdate, if_pos hy] at h
      rcases List.mem_cons.mp h with h' | h'
      · exact Or.inr ⟨y, List.mem_cons_self _ _, hy.1, hy.2, h'⟩
      · exact Or.inl (List.mem_cons_of_mem _ h')
    · rw [casUpdate, if_neg hy] at h
      simp only at h
      rcases List.mem_cons.mp h with h' | h'
      · exact Or.inl (by rw [h']; exact List.mem_cons_self _ _)
      · rcases ih h' with h2 | ⟨r, h2, h3, h4, h5⟩
        · exact Or.inl (List.mem_cons_of_mem _ h2)
        · exact Or.inr ⟨r, List.mem_cons_of_mem _ h2, h3, h4, h5⟩

lemma map_id_updateById {f : Rec → Rec} (hid : ∀ r, (f r).id = r.id) (tgt : Nat) :
    ∀ (l : List Rec), (updateById tgt f l).map (fun r => r.id) =
      l.map (fun r => r.id) := by
  intro l
  induction l with
  | nil => rfl
  | cons x xs ih =>
    by_cases hx : x.id = tgt
    · rw [updateById, if_pos hx]
      simp [hid]
    · rw [updateById, if_neg hx]
      simp [ih]

lemma map_id_casUpdate {f : Rec → Rec} (hid : ∀ r, (f r).id = r.id)
    (tgt : Nat) (exp : Status) :
    ∀ (l : List Rec), ((casUpdate tgt exp f l).2).map (fun r => r.id) =
      l.map (fun r => r.id) := by
  intro l
  induction l with
  | nil => rfl
  | cons x xs ih =>
    by_cases hx : x.id = tgt ∧ x.status = exp
    · rw [casUpdate, if_pos hx]
      simp [hid]
    · rw [casUpdate, if_neg hx]
      simp only [List.map_cons]
      rw [ih]

lemma foldl_olderOf_mem : ∀ (rs : List Rec) (r : Rec),
    rs.foldl olderOf r ∈ r :: rs := by
  intro rs
  induction rs with
  | nil => intro r; exact List.mem_cons_self _ _
  | cons x xs ih =>
    intro r
    rw [List.foldl_cons]
    have h := ih (olderOf r x)
    rcases List.mem_cons.mp h with h' | h'
    · rw [h']
      unfold olderOf
      by_cases hc : x.created_at < r.created_at
      · rw [if_pos hc]
        exact List.mem_cons_of_mem _ (List.mem_cons_self _ _)
      · rw [if_neg hc]
        exact List.mem_cons_self _ _
    · exact List.mem_cons_of_mem _ (List.mem_cons_of_mem _ h')

lemma foldl_olderOf_le : ∀ (rs : List Rec) (r : Rec) (x : Rec),
    x ∈ r :: rs → (rs.foldl olderOf r).created_at ≤ x.created_at := by
  intro rs
  induction rs with
  | nil =>
    intro r x hx
    rcases List.mem_cons.mp hx with h | h
    · rw [h]
      exact Nat.le_refl _
    · simp at h
  | cons y ys ih =>
    intro r x hx
    simp only [List.foldl_cons]
    have hold : (olderOf r y).created_at ≤ r.created_at ∧
        (olderOf r y).created_at ≤ y.created_at := by
      unfold olderOf
      by_cases hc : y.created_at < r.created_at
      · rw [if_pos hc]; omega
      · rw [if_neg hc]; omega
    rcases List.mem_cons.mp hx with h | hx2
    · calc (ys.foldl olderOf (olderOf r y)).created_at
          ≤ (olderOf r y).created_at := ih (olderOf r y) _ (List.mem_cons_self _ _)
        _ ≤ x.created_at := h ▸ hold.1
    · rcases List.mem_cons.mp hx2 with h | h
      · calc (ys.foldl olderOf (olderOf r y)).created_at
            ≤ (olderOf r y).created_at := ih (olderOf r y) _ (List.mem_cons_self _ _)
          _ ≤ x.created_at := h ▸ hold.2
      · exact ih (olderOf r y) x (List.mem_cons_of_mem _ h)

lemma selectOldest_mem {p : Rec → Bool} {l : List Rec} {r : Rec}
    (h : selectOldest p l = some r) : r ∈ l ∧ p r = true := by
  unfold selectOldest at h
  cases hf : l.filter p with
  | nil => rw [hf] at h; cases h
  | cons x xs =>
    rw [hf] at h
    cases h
    have hm : xs.foldl olderOf x ∈ l.filter p := by
      rw [hf]
      exact foldl_olderOf_mem xs x
    exact ⟨(List.mem_filter.mp hm).1, (List.mem_filter.mp hm).2⟩

lemma selectOldest_min {p : Rec → Bool} {l : List Rec} {r : Rec}
    (h : selectOldest p l = some r) :
    ∀ x ∈ l, p x = true → r.created_at ≤ x.created_at := by
  intro x hx hpx
  unfold selectOldest at h
  cases hf : l.filter p with
  | nil => rw [hf] at h; cases h
  | cons y ys =>
    rw [hf] at h
    cases h
    have : x ∈ l.filter p := List.mem_filter.mpr ⟨hx, hpx⟩
    rw [hf] at this
    exact foldl_olderOf_le ys y x this

lemma selectOldest_isSome {p : Rec → Bool} {l : List Rec}
    (h : ∃ x ∈ l, p x = true) : (selectOldest p l).isSome := by
  obtain ⟨x, hx, hp⟩ := h
  unfold selectOldest
  cases hf : l.filter p with
  | nil =>
    have : x ∈ l.filter p := List.mem_filter.mpr ⟨hx, hp⟩
    rw [hf] at this
    simp at this
  | cons y ys => rfl

lemma selectOldest_eq_none {p : Rec → Bool} {l : List Rec}
    (h : ∀ x ∈ l, p x = false) : selectOldest p l = none := by
  unfold selectOldest
  have hf : l.filter p = [] := by
    rw [List.filter_eq_nil_iff]
    intro a ha
    simp [h a ha]
  rw [hf]

lemma eligRenderTask_iff {r : Rec} : eligRenderTask r = true ↔ r.status = .queued := by
  simp [eligRenderTask]

lemma eligEdit_iff {r : Rec} : eligEdit r = true ↔ r.status = .queued := by
  simp [eligEdit]

lemma eligJob_iff {r : Rec} : eligJob r = true ↔
    r.status = .ready ∧ (r.jobType = "discover" ∨ r.jobType = "long_form") := by
  simp [eligJob]

lemma eligAiShort_iff {r : Rec} : eligAiShort r = true ↔
    r.status = .ready ∧ r.jobType = "ai_short" := by
  simp [eligAiShort]

lemma eligDiscover_iff {r : Rec} : eligDiscover r = true ↔
    r.status = .ready ∧ r.jobType = "discover" := by
  simp [eligDiscover]

lemma claimJob_some {jobs jobs2 : List Rec} {c : Rec}
    (h : claimJob jobs = (some c, jobs2)) :
    ∃ r, r ∈ jobs ∧ r.status = .ready ∧ c = { r with status := Status.processing } := by
  simp only [claimJob] at h
  split at h
  · exact absurd h (by simp)
  · split at h
    · rename_i j hsel c' hc1
      obtain ⟨r, hm, hi, hst, hc⟩ := casUpdate_some hc1
      have hcc : c' = c := by
        simpa using congrArg Prod.fst h
      exact ⟨r, hm, hst, by rw [← hcc, hc]⟩
    · exact absurd h (by simp)

lemma claimAiShortJob_some {jobs jobs2 : List Rec} {c : Rec}
    (h : claimAiShortJob jobs = (some c, jobs2)) :
    ∃ r, r ∈ jobs ∧ r.status = .ready ∧ c = { r with status := Status.processing } := by
  simp only [claimAiShortJob] at h
  split at h
  · exact absurd h (by simp)
  · split at h
    · rename_i j hsel c' hc1
      obtain ⟨r, hm, hi, hst, hc⟩ := casUpdate_some hc1
      have hcc : c' = c := by
        simpa using congrArg Prod.fst h
      exact ⟨r, hm, hst, by rw [← hcc, hc]⟩
    · exact absurd h (by simp)

lemma claimRenderTaskFallback_some {wid : String} {tasks tasks2 : List Rec} {c : Rec}
    (hnd : (tasks.map (fun r => r.id)).Nodup)
    (h : claimRenderTaskFallback wid tasks = (some c, tasks2)) :
    ∃ r, r ∈ tasks ∧ r.status = .queued ∧
      c = { r with status := Status.rendering, worker_id := some wid,
                   attempts := r.attempts + 1 } ∧
      tasks2 = (casUpdate r.id .queued
        (fun x => { x with status := Status.rendering, worker_id := some wid,
                           attempts := r.attempts + 1 }) tasks).2 ∧
      (∀ x ∈ tasks, eligRenderTask x = true → r.created_at ≤ x.created_at) := by
  simp only [claimRenderTaskFallback] at h
  cases hsel : selectOldest eligRenderTask tasks with
  | none =>
    rw [hsel] at h
    simp at h
  | some t =>
    rw [hsel] at h
    simp only at h
    cases hc1 : (casUpdate t.id Status.queued
        (fun r => { r with status := Status.rendering, worker_id := some wid,
                           attempts := t.attempts + 1 }) tasks).1 with
    | none =>
      rw [hc1] at h
      simp at h
    | some c' =>
      rw [hc1] at h
      simp only [Prod.mk.injEq, Option.some.injEq] at h
      obtain ⟨r, hm, hi, hst, hc⟩ := casUpdate_some hc1
      obtain ⟨htm, hte⟩ := selectOldest_mem hsel
      have htq : t.status = .queued := eligRenderTask_iff.mp hte
      have hrt : r = t := List.inj_on_of_nodup_map hnd hm htm hi
      refine ⟨t, htm, htq, ?_, ?_, selectOldest_min hsel⟩
      · rw [← h.1, hc, hrt]
      · rw [← h.2]

lemma claim_isSome_of_elig {jobs : List Rec}
    (h : ∃ x ∈ jobs, eligAiShort x = true) : ((claimAiShortJob jobs).1).isSome := by
  simp only [claimAiShortJob]
  cases hsel : selectOldest eligAiShort jobs with
  | none =>
    have := selectOldest_isSome h
    rw [hsel] at this
    cases this
  | some j =>
    obtain ⟨hjm, hje⟩ := selectOldest_mem hsel
    have hjr : j.status = .ready := (eligAiShort_iff.mp hje).1
    have hcs := casUpdate_isSome (f := fun r => { r with status := Status.processing })
      ⟨j, hjm, rfl, hjr⟩
    cases hc1 : (casUpdate j.id Status.ready
        (fun r => { r with status := Status.processing }) jobs).1 with
    | none => rw [hc1] at hcs; cases hcs
    | some c => simp [hc1]

/-- C1: for a record with status ready, across any interleaving of any number
of concurrent claim calls (each a fetch followed by a status-guarded
conditional update), at most one caller observes a successful claim; and in
any complete interleaving of C ≥ 1 callers — one where every caller has
returned — exactly one caller got the record and the other C−1 observed no
record available. -/
theorem claim_race_mutual_exclusion (C : Nat) (sched : List Nat) :
    winners (raceRun (raceInit C) sched).callers ≤ 1 ∧
    (1 ≤ C →
      (∀ q ∈ (raceRun (raceInit C) sched).callers,
        q = CallerPhase.finished true ∨ q = CallerPhase.finished false) →
      winners (raceRun (raceInit C) sched).callers = 1) := by
  have hinv := raceRun_inv sched (raceInit_inv C)
  constructor
  · rcases hinv with ⟨_, h2, _⟩ | ⟨_, h2⟩ <;> omega
  · intro hC hdone
    rcases hinv with ⟨h1, h2, h3⟩ | ⟨h1, h2⟩
    · have hlen : (raceRun (raceInit C) sched).callers.length = C := by
        rw [raceRun_length]
        simp [raceInit]
      have hne : (raceRun (raceInit C) sched).callers ≠ [] := by
        intro hnil
        rw [hnil] at hlen
        simp at hlen
        omega
      obtain ⟨q, hq⟩ := List.exists_mem_of_ne_nil _ hne
      rcases hdone q hq with hd | hd <;> rcases h3 q hq with h' | h' <;>
        rw [hd] at h' <;> exact absurd h' (by simp)
    · exact h2

/-- Witness for C1: three callers interleaved fetch-fetch-fetch then
update-update-update all finish, and exactly one wins. -/
theorem claim_race_mutual_exclusion_witness :
    winners (raceRun (raceInit 3) [0, 1, 2, 0, 1, 2]).callers = 1 :=
  (claim_race_mutual_exclusion 3 [0, 1, 2, 0, 1, 2]).2 (by decide) (by decide)

lemma claimJob_some_nodup {jobs jobs2 : List Rec} {c : Rec}
    (hnd : (jobs.map (fun r => r.id)).Nodup)
    (h : claimJob jobs = (some c, jobs2)) :
    ∃ r, r ∈ jobs ∧ eligJob r = true ∧ c = { r with status := Status.processing } ∧
      ∀ x ∈ jobs, eligJob x = true → r.created_at ≤ x.created_at := by
  simp only [claimJob] at h
  cases hsel : selectOldest eligJob jobs with
  | none =>
    rw [hsel] at h
    simp at h
  | some j =>
    rw [hsel] at h
    simp only at h
    cases hc1 : (casUpdate j.id Status.ready
        (fun r => { r with status := Status.processing }) jobs).1 with
    | none =>
      rw [hc1] at h
      simp at h
    | some c' =>
      rw [hc1] at h
      simp only [Prod.mk.injEq, Option.some.injEq] at h
      obtain ⟨r, hm, hi, hst, hc⟩ := casUpdate_some hc1
      obtain ⟨hjm, hje⟩ := selectOldest_mem hsel
      have hrj : r = j := List.inj_on_of_nodup_map hnd hm hjm hi
      refine ⟨j, hjm, hje, ?_, selectOldest_min hsel⟩
      rw [← h.1, hc, hrj]

lemma claimAiShortJob_some_nodup {jobs jobs2 : List Rec} {c : Rec}
    (hnd : (jobs.map (fun r => r.id)).Nodup)
    (h : claimAiShortJob jobs = (some c, jobs2)) :
    ∃ r, r ∈ jobs ∧ eligAiShort r = true ∧ c = { r with status := Status.processing } ∧
      ∀ x ∈ jobs, eligAiShort x = true → r.created_at ≤ x.created_at := by
  simp only [claimAiShortJob] at h
  cases hsel : selectOldest eligAiShort jobs with
  | none =>
    rw [hsel] at h
    simp at h
  | some j =>
    rw [hsel] at h
    simp only at h
    cases hc1 : (casUpdate j.id Status.ready
        (fun r => { r with status := Status.processing }) jobs).1 with
    | none =>
      rw [hc1] at h
      simp at h
    | some c' =>
      rw [hc1] at h
      simp only [Prod.mk.injEq, Option.some.injEq] at h
      obtain ⟨r, hm, hi, hst, hc⟩ := casUpdate_some hc1
      obtain ⟨hjm, hje⟩ := selectOldest_mem hsel
      have hrj : r = j := List.inj_on_of_nodup_map hnd hm hjm hi
      refine ⟨j, hjm, hje, ?_, selectOldest_min hsel⟩
      rw [← h.1, hc, hrj]

/-- C2 (counterexample): a fresh ready `ai_short` job (attempts 0, no owner)
is successfully claimed by `claimAiShortJob`, yet the claimed record comes
back with attempts still 0 — not incremented — and worker_id still unset,
refuting "attempts counter incremented by exactly 1 and owner field set" for
every successful claim. -/
theorem claim_sets_attempts_owner_cex :
    (claimAiShortJob [jobA]).1.map (fun r => (r.status, r.attempts, r.worker_id)) =
      some (Status.processing, 0, none) := by
  rfl

/-- C2 (amended): every successful claim transitions the record from its
ready/queued state to its processing state (rendering, for render tasks), but
only the render-task fallback claim also increments attempts by exactly 1 and
sets the owner to the claiming worker; `claimJob` and `claimAiShortJob` write
only the status, leaving attempts and owner unchanged. -/
theorem claim_transition_amended :
    (∀ (jobs jobs2 : List Rec) (c : Rec), claimJob jobs = (some c, jobs2) →
      ∃ r, r ∈ jobs ∧ r.status = Status.ready ∧
        c = { r with status := Status.processing }) ∧
    (∀ (jobs jobs2 : List Rec) (c : Rec), claimAiShortJob jobs = (some c, jobs2) →
      ∃ r, r ∈ jobs ∧ r.status = Status.ready ∧
        c = { r with status := Status.processing }) ∧
    (∀ (wid : String) (tasks tasks2 : List Rec) (c : Rec),
      (tasks.map (fun r => r.id)).Nodup →
      claimRenderTaskFallback wid tasks = (some c, tasks2) →
      ∃ r, r ∈ tasks ∧ r.status = Status.queued ∧
        c = { r with status := Status.rendering, worker_id := some wid,
                     attempts := r.attempts + 1 }) := by
  refine ⟨?_, ?_, ?_⟩
  · intro jobs jobs2 c h
    exact claimJob_some h
  · intro jobs jobs2 c h
    exact claimAiShortJob_some h
  · intro wid tasks tasks2 c hnd h
    obtain ⟨r, h1, h2, h3, _, _⟩ := claimRenderTaskFallback_some hnd h
    exact ⟨r, h1, h2, h3⟩

/-- Witness for the amended C2: the render-fallback conjunct applied to a
one-task store; the claimed row is queued taskA with attempts bumped to 1 and
owner w-1. -/
theorem claim_transition_amended_witness :
    ∃ r, r ∈ [taskA] ∧ r.status = Status.queued ∧
      taskClaimed = { r with status := Status.rendering, worker_id := some "w-1",
                             attempts := r.attempts + 1 } :=
  claim_transition_amended.2.2 "w-1" [taskA] [taskClaimed] taskClaimed
    (by decide) (by rfl)

/-- C6: a claim call returns the single oldest eligible record: the generic
fetch (`selectOldest`) returns an eligible row whose created_at is minimal
among eligible rows, the job claims return a record no younger than any
eligible record of the store, and in the concrete two-task render scenario
(taskA at T0 = 3, taskB at T1 = 4, both queued) the claim returns taskA. -/
theorem claim_selects_oldest :
    (∀ (p : Rec → Bool) (l : List Rec) (r : Rec), selectOldest p l = some r →
      r ∈ l ∧ p r = true ∧ ∀ x ∈ l, p x = true → r.created_at ≤ x.created_at) ∧
    (∀ (jobs jobs2 : List Rec) (c : Rec), (jobs.map (fun r => r.id)).Nodup →
      claimJob jobs = (some c, jobs2) →
      ∀ x ∈ jobs, eligJob x = true → c.created_at ≤ x.created_at) ∧
    (∀ (jobs jobs2 : List Rec) (c : Rec), (jobs.map (fun r => r.id)).Nodup →
      claimAiShortJob jobs = (some c, jobs2) →
      ∀ x ∈ jobs, eligAiShort x = true → c.created_at ≤ x.created_at) ∧
    (claimRenderTaskFallback "w-1" [taskB, taskA]).1.map (fun r => r.id) =
      some taskA.id := by
  refine ⟨?_, ?_, ?_, ?_⟩
  · intro p l r h
    obtain ⟨h1, h2⟩ := selectOldest_mem h
    exact ⟨h1, h2, selectOldest_min h⟩
  · intro jobs jobs2 c hnd h x hx he
    obtain ⟨r, _, _, hc, hmin⟩ := claimJob_some_nodup hnd h
    rw [hc]
    exact hmin x hx he
  · intro jobs jobs2 c hnd h x hx he
    obtain ⟨r, _, _, hc, hmin⟩ := claimAiShortJob_some_nodup hnd h
    rw [hc]
    exact hmin x hx he
  · rfl

/-- Witness for C6: the claimJob conjunct applied to a one-job store: the
claimed record is at least as old as every eligible record there. -/
theorem claim_selects_oldest_witness :
    ∀ x ∈ [jobB], eligJob x = true →
      ({ jobB with status := Status.processing } : Rec).created_at ≤ x.created_at :=
  claim_selects_oldest.2.1 [jobB]
    [{ jobB with status := Status.processing }]
    { jobB with status := Status.processing } (by decide) (by rfl)

/-- C8: the SIGTERM release step issues one conditional update reverting the
owned record to ready, conditioned on it still being in processing state: a
processing record reverts to ready, while a record that already reached done
or failed is left untouched. -/
theorem sigterm_release_conditional (jobs : List Rec) (jid : Nat) :
    (statusOf jid jobs = some Status.processing →
      statusOf jid (sigtermRelease (some jid) jobs) = some Status.ready) ∧
    (statusOf jid jobs = some Status.done →
      statusOf jid (sigtermRelease (some jid) jobs) = some Status.done) ∧
    (statusOf jid jobs = some Status.failed →
      statusOf jid (sigtermRelease (some jid) jobs) = some Status.failed) := by
  have hfr := findRec_casUpdate
    (f := fun r => { r with status := Status.ready }) (fun r => rfl)
    jid jid Status.processing jobs
  rw [if_pos rfl] at hfr
  refine ⟨?_, ?_, ?_⟩ <;> intro h <;>
  · simp only [statusOf] at h ⊢
    simp only [sigtermRelease]
    rw [hfr]
    cases hf : findRec jid jobs with
    | none =>
      rw [hf] at h
      cases h
    | some r =>
      rw [hf] at h
      simp at h
      simp [h]

/-- Witness for C8: a processing job is reverted to ready by the release
step. -/
theorem sigterm_release_conditional_witness :
    statusOf 7 (sigtermRelease (some 7) [jobAClaimed]) = some Status.ready :=
  (sigterm_release_conditional [jobAClaimed] 7).1 (by rfl)

lemma findRec_updateById_self {f : Rec → Rec} (hid : ∀ r, (f r).id = r.id)
    {tgt : Nat} {l : List Rec} {r : Rec} (hf : findRec tgt l = some r) :
    findRec tgt (updateById tgt f l) = some (f r) := by
  rw [findRec_updateById hid tgt tgt l, if_pos rfl, hf]
  rfl

/-- C3 (counterexample): a claimed render task (attempts 1, owned by w-1)
fails retryably; the record is re-queued but its worker_id is still w-1 — the
owner is not cleared, refuting "back to ready/queued with its owner cleared". -/
theorem retry_requeue_owner_cex :
    statusOf 1 (processRenderTask taskClaimed (.err "ffmpeg timeout")
      [taskClaimed] []).1 = some Status.queued ∧
    workerOf 1 (processRenderTask taskClaimed (.err "ffmpeg timeout")
      [taskClaimed] []).1 = some (some "w-1") := by
  exact ⟨rfl, rfl⟩

/-- C3 (amended): a retryable render failure with attempts < 3 re-queues the
task by a status-only write, so the owner field is left unchanged rather than
cleared; at attempts ≥ 3 the task and its parent job are failed with the
error set to the last failure reason, unannotated; the AI-short path at
attempt ≥ max fails the job with the failure reason annotated with the
attempt count. -/
theorem retry_failure_amended :
    (∀ (t : Rec) (msg u : String) (tasks jobs : List Rec), t.clip_url = some u →
      t.attempts < 3 →
      processRenderTask t (.err msg) tasks jobs =
        (updateById t.id (fun r => { r with status := Status.queued }) tasks, jobs) ∧
      workerOf t.id (processRenderTask t (.err msg) tasks jobs).1 =
        workerOf t.id tasks) ∧
    (∀ (t : Rec) (msg u : String) (tasks jobs : List Rec) (r : Rec),
      t.clip_url = some u → 3 ≤ t.attempts → findRec t.id tasks = some r →
      processRenderTask t (.err msg) tasks jobs = failTask t msg tasks jobs ∧
      errorOf t.id (processRenderTask t (.err msg) tasks jobs).1 = some (some msg)) ∧
    (∀ (jid attempt : Nat) (msg : String) (rest : List AiOutcome)
        (ints : List (List Rec → List Rec)) (jobs : List Rec),
      maxAttempts ≤ attempt →
      processAiShortJobAux jid attempt (.err false msg :: rest) ints jobs =
        (markFailed jid (msg ++ " (after " ++ toString attempt ++ " attempts)") jobs,
          attempt)) := by
  refine ⟨?_, ?_, ?_⟩
  · intro t msg u tasks jobs hu hlt
    have he : processRenderTask t (.err msg) tasks jobs =
        (updateById t.id (fun r => { r with status := Status.queued }) tasks, jobs) := by
      simp only [processRenderTask, hu]
      rw [if_pos hlt]
    refine ⟨he, ?_⟩
    rw [he]
    simp only [workerOf]
    rw [findRec_updateById (f := fun r => { r with status := Status.queued })
      (fun x => rfl) t.id t.id tasks, if_pos rfl]
    cases findRec t.id tasks <;> rfl
  · intro t msg u tasks jobs r hu hge hf
    have he : processRenderTask t (.err msg) tasks jobs = failTask t msg tasks jobs := by
      simp only [processRenderTask, hu]
      rw [if_neg (by omega)]
    refine ⟨he, ?_⟩
    rw [he]
    simp only [failTask, errorOf]
    rw [findRec_updateById_self
      (f := fun r => { r with status := Status.failed, error := some msg })
      (fun x => rfl) hf]
    rfl
  · intro jid attempt msg rest ints jobs h
    have hb : (false || decide (maxAttempts ≤ attempt)) = true := by
      rw [Bool.false_or]
      exact decide_eq_true h
    have ha : aiAnnot msg attempt =
        msg ++ " (after " ++ toString attempt ++ " attempts)" := by
      unfold aiAnnot
      rw [if_pos (by simp [maxAttempts] at h; omega)]
    simp only [processAiShortJobAux, hb, if_true, ha]

/-- Witness for the amended C3: the requeue conjunct applied to the claimed
sample task — re-queued, owner untouched. -/
theorem retry_failure_amended_witness :
    processRenderTask taskClaimed (.err "boom") [taskClaimed] [] =
      (updateById taskClaimed.id (fun r => { r with status := Status.queued })
        [taskClaimed], []) ∧
    workerOf taskClaimed.id
        (processRenderTask taskClaimed (.err "boom") [taskClaimed] []).1 =
      workerOf taskClaimed.id [taskClaimed] :=
  retry_failure_amended.1 taskClaimed "boom" "http://clip/a" [taskClaimed] []
    (by rfl) (by decide)

/-- C4 (counterexample): an `ai_short` job whose stored attempts counter is 0
(the claim never increments it) fails with a validation error on the first
attempt; it is failed immediately with exactly one attempt performed, but the
record's attempts field reads 0, not 1 — refuting "failed ... with
attempts=1" as a statement about the record's counter. -/
theorem validation_attempts_field_cex :
    (processAiShortJobAux 7 1 [.err true "Missing script in job payload"] []
      [jobAClaimed]).2 = 1 ∧
    statusOf 7 (processAiShortJobAux 7 1 [.err true "Missing script in job payload"] []
      [jobAClaimed]).1 = some Status.failed ∧
    attemptsOf 7 (processAiShortJobAux 7 1 [.err true "Missing script in job payload"] []
      [jobAClaimed]).1 = some 0 := by
  exact ⟨rfl, rfl, rfl⟩

/-- C4 (amended): a validation-class failure yields status failed on that
same attempt with the error text set and zero retries, regardless of the
attempts value and of the retry maximum; exactly one attempt is performed
when it strikes on the first attempt.  The render task's attempts field keeps
the value the claim wrote (1 on a first attempt); the AI-short path never
writes the job's attempts field. -/
theorem validation_failure_amended :
    (∀ (t : Rec) (o : ROutcome) (tasks jobs : List Rec), t.clip_url = none →
      processRenderTask t o tasks jobs =
        failTask t "No clip_url provided in task input" tasks jobs) ∧
    (∀ (t : Rec) (o : ROutcome) (tasks jobs : List Rec) (r : Rec),
      t.clip_url = none → findRec t.id tasks = some r →
      statusOf t.id (processRenderTask t o tasks jobs).1 = some Status.failed ∧
      attemptsOf t.id (processRenderTask t o tasks jobs).1 = some r.attempts ∧
      errorOf t.id (processRenderTask t o tasks jobs).1 =
        some (some "No clip_url provided in task input")) ∧
    (∀ (jid attempt : Nat) (msg : String) (rest : List AiOutcome)
        (ints : List (List Rec → List Rec)) (jobs : List Rec),
      processAiShortJobAux jid attempt (.err true msg :: rest) ints jobs =
        (markFailed jid (aiAnnot msg attempt) jobs, attempt)) ∧
    (∀ (jid : Nat) (msg : String) (rest : List AiOutcome)
        (ints : List (List Rec → List Rec)) (jobs : List Rec),
      processAiShortJobAux jid 1 (.err true msg :: rest) ints jobs =
        (markFailed jid msg jobs, 1)) := by
  have hvr : ∀ (t : Rec) (o : ROutcome) (tasks jobs : List Rec), t.clip_url = none →
      processRenderTask t o tasks jobs =
        failTask t "No clip_url provided in task input" tasks jobs := by
    intro t o tasks jobs h
    simp only [processRenderTask, h]
  have hai : ∀ (jid attempt : Nat) (msg : String) (rest : List AiOutcome)
      (ints : List (List Rec → List Rec)) (jobs : List Rec),
      processAiShortJobAux jid attempt (.err true msg :: rest) ints jobs =
        (markFailed jid (aiAnnot msg attempt) jobs, attempt) := by
    intro jid attempt msg rest ints jobs
    simp only [processAiShortJobAux, Bool.true_or, if_true]
  refine ⟨hvr, ?_, hai, ?_⟩
  · intro t o tasks jobs r h hf
    rw [hvr t o tasks jobs h]
    simp only [failTask, statusOf, attemptsOf, errorOf]
    rw [findRec_updateById_self
      (f := fun r => { r with status := Status.failed,
                              error := some "No clip_url provided in task input" })
      (fun x => rfl) hf]
    exact ⟨rfl, rfl, rfl⟩
  · intro jid msg rest ints jobs
    rw [hai jid 1 msg rest ints jobs]
    simp [aiAnnot]

lemma casUpdate_eq_none {jid : Nat} {exp : Status} {f : Rec → Rec} :
    ∀ {l : List Rec}, (∀ r ∈ l, ¬(r.id = jid ∧ r.status = exp)) →
      (casUpdate jid exp f l).1 = none := by
  intro l
  induction l with
  | nil => intro _; rfl
  | cons x xs ih =>
    intro h
    rw [casUpdate, if_neg (h x (List.mem_cons_self _ _))]
    exact ih (fun r hr => h r (List.mem_cons_of_mem _ hr))

lemma row_unique_status {jid : Nat} {l : List Rec} {st : Status}
    (hnd : (l.map (fun r => r.id)).Nodup) (hst : statusOf jid l = some st) :
    ∀ r ∈ l, r.id = jid → r.status = st := by
  intro r hm hid
  have h1 := findRec_of_mem_nodup hnd hm
  rw [hid] at h1
  simp only [statusOf, h1, Option.map_some'] at hst
  exact Option.some.inj hst

lemma claimRender_none {tasks : List Rec} (wid : String)
    (h : ∀ x ∈ tasks, eligRenderTask x = false) :
    claimRenderTaskFallback wid tasks = (none, tasks) := by
  simp [claimRenderTaskFallback, selectOldest_eq_none h]

lemma claimEdit_none {edits : List Rec}
    (h : ∀ x ∈ edits, eligEdit x = false) :
    claimEditTaskFallback edits = (none, edits) := by
  simp [claimEditTaskFallback, selectOldest_eq_none h]

lemma claimAi_none {jobs : List Rec}
    (h : ∀ x ∈ jobs, eligAiShort x = false) :
    claimAiShortJob jobs = (none, jobs) := by
  simp [claimAiShortJob, selectOldest_eq_none h]

lemma claimDiscover_none {jobs : List Rec}
    (h : ∀ x ∈ jobs, eligDiscover x = false) :
    claimDiscoverJob jobs = (none, jobs) := by
  simp [claimDiscoverJob, selectOldest_eq_none h]

lemma claimRender_isSome {tasks : List Rec} (wid : String)
    (h : ∃ x ∈ tasks, eligRenderTask x = true) :
    ((claimRenderTaskFallback wid tasks).1).isSome := by
  simp only [claimRenderTaskFallback]
  cases hsel : selectOldest eligRenderTask tasks with
  | none =>
    have := selectOldest_isSome h
    rw [hsel] at this
    cases this
  | some t =>
    obtain ⟨htm, hte⟩ := selectOldest_mem hsel
    have htq : t.status = .queued := eligRenderTask_iff.mp hte
    have hcs := casUpdate_isSome
      (f := fun r => { r with status := Status.rendering, worker_id := some wid,
                              attempts := t.attempts + 1 })
      ⟨t, htm, rfl, htq⟩
    cases hc1 : (casUpdate t.id Status.queued
        (fun r => { r with status := Status.rendering, worker_id := some wid,
                           attempts := t.attempts + 1 }) tasks).1 with
    | none => rw [hc1] at hcs; cases hcs
    | some c => simp [hc1]

lemma claimEdit_isSome {edits : List Rec}
    (h : ∃ x ∈ edits, eligEdit x = true) :
    ((claimEditTaskFallback edits).1).isSome := by
  simp only [claimEditTaskFallback]
  cases hsel : selectOldest eligEdit edits with
  | none =>
    have := selectOldest_isSome h
    rw [hsel] at this
    cases this
  | some e =>
    obtain ⟨hem, hee⟩ := selectOldest_mem hsel
    have heq : e.status = .queued := eligEdit_iff.mp hee
    have hcs := casUpdate_isSome
      (f := fun r => { r with status := Status.processing }) ⟨e, hem, rfl, heq⟩
    cases hc1 : (casUpdate e.id Status.queued
        (fun r => { r with status := Status.processing }) edits).1 with
    | none => rw [hc1] at hcs; cases hcs
    | some c => simp [hc1]

lemma claimDiscover_isSome {jobs : List Rec}
    (h : ∃ x ∈ jobs, eligDiscover x = true) :
    ((claimDiscoverJob jobs).1).isSome := by
  simp only [claimDiscoverJob]
  cases hsel : selectOldest eligDiscover jobs with
  | none =>
    have := selectOldest_isSome h
    rw [hsel] at this
    cases this
  | some j =>
    obtain ⟨hjm, hje⟩ := selectOldest_mem hsel
    have hjr : j.status = .ready := (eligDiscover_iff.mp hje).1
    have hcs := casUpdate_isSome
      (f := fun r => { r with status := Status.processing }) ⟨j, hjm, rfl, hjr⟩
    cases hc1 : (casUpdate j.id Status.ready
        (fun r => { r with status := Status.processing }) jobs).1 with
    | none => rw [hc1] at hcs; cases hcs
    | some c => simp [hc1]

/-- C5: the poll tick probes the queues in the fixed order render, edit,
AI-short, discover, claims and processes at most one item (the
`TickResult.claimed` field), and never claims from a lower-priority queue
while a higher-priority queue has an eligible record: an eligible render task
forces a render claim (edits untouched), an eligible edit with no eligible
render forces an edit claim (tasks and jobs untouched), and so on; with no
eligible record anywhere nothing is claimed and no store changes. -/
theorem poll_priority_order (wid : String) (renv eenv : ROutcome)
    (aiOut : List AiOutcome) (aiInt : List (List Rec → List Rec))
    (denv : Except String Unit) (tasks edits jobs : List Rec) :
    ((∃ x ∈ tasks, eligRenderTask x = true) →
      ∃ t, (pollForWork wid renv eenv aiOut aiInt denv tasks edits jobs).claimed =
          some (ClaimKind.renderT t) ∧
        (pollForWork wid renv eenv aiOut aiInt denv tasks edits jobs).edits = edits) ∧
    ((∀ x ∈ tasks, eligRenderTask x = false) → (∃ x ∈ edits, eligEdit x = true) →
      ∃ e, (pollForWork wid renv eenv aiOut aiInt denv tasks edits jobs).claimed =
          some (ClaimKind.editT e) ∧
        (pollForWork wid renv eenv aiOut aiInt denv tasks edits jobs).tasks = tasks ∧
        (pollForWork wid renv eenv aiOut aiInt denv tasks edits jobs).jobs = jobs) ∧
    ((∀ x ∈ tasks, eligRenderTask x = false) → (∀ x ∈ edits, eligEdit x = false) →
      (∃ x ∈ jobs, eligAiShort x = true) →
      ∃ j, (pollForWork wid renv eenv aiOut aiInt denv tasks edits jobs).claimed =
          some (ClaimKind.aiJob j) ∧
        (pollForWork wid renv eenv aiOut aiInt denv tasks edits jobs).tasks = tasks ∧
        (pollForWork wid renv eenv aiOut aiInt denv tasks edits jobs).edits = edits) ∧
    ((∀ x ∈ tasks, eligRenderTask x = false) → (∀ x ∈ edits, eligEdit x = false) →
      (∀ x ∈ jobs, eligAiShort x = false) → (∃ x ∈ jobs, eligDiscover x = true) →
      ∃ j, (pollForWork wid renv eenv aiOut aiInt denv tasks edits jobs).claimed =
          some (ClaimKind.discovery j)) ∧
    ((∀ x ∈ tasks, eligRenderTask x = false) → (∀ x ∈ edits, eligEdit x = false) →
      (∀ x ∈ jobs, eligAiShort x = false) → (∀ x ∈ jobs, eligDiscover x = false) →
      (pollForWork wid renv eenv aiOut aiInt denv tasks edits jobs).claimed = none ∧
      (pollForWork wid renv eenv aiOut aiInt denv tasks edits jobs).tasks = tasks ∧
      (pollForWork wid renv eenv aiOut aiInt denv tasks edits jobs).edits = edits ∧
      (pollForWork wid renv eenv aiOut aiInt denv tasks edits jobs).jobs = jobs) := by
  refine ⟨?_, ?_, ?_, ?_, ?_⟩
  · intro h
    simp only [pollForWork]
    cases hc : (claimRenderTaskFallback wid tasks).1 with
    | none =>
      have hs := claimRender_isSome wid h
      rw [hc] at hs
      cases hs
    | some t => exact ⟨t, rfl, rfl⟩
  · intro h1 h2
    have hc1 : (claimRenderTaskFallback wid tasks).1 = none := by
      rw [claimRender_none wid h1]
    simp only [pollForWork, hc1]
    cases hce : (claimEditTaskFallback edits).1 with
    | none =>
      have hs := claimEdit_isSome h2
      rw [hce] at hs
      cases hs
    | some e => exact ⟨e, rfl, rfl, rfl⟩
  · intro h1 h2 h3
    have hc1 : (claimRenderTaskFallback wid tasks).1 = none := by
      rw [claimRender_none wid h1]
    have hc2 : (claimEditTaskFallback edits).1 = none := by
      rw [claimEdit_none h2]
    simp only [pollForWork, hc1, hc2]
    cases hca : (claimAiShortJob jobs).1 with
    | none =>
      have hs := claim_isSome_of_elig h3
      rw [hca] at hs
      cases hs
    | some j => exact ⟨j, rfl, rfl, rfl⟩
  · intro h1 h2 h3 h4
    have hc1 : (claimRenderTaskFallback wid tasks).1 = none := by
      rw [claimRender_none wid h1]
    have hc2 : (claimEditTaskFallback edits).1 = none := by
      rw [claimEdit_none h2]
    have hc3 : (claimAiShortJob jobs).1 = none := by
      rw [claimAi_none h3]
    simp only [pollForWork, hc1, hc2, hc3]
    cases hcd : (claimDiscoverJob jobs).1 with
    | none =>
      have hs := claimDiscover_isSome h4
      rw [hcd] at hs
      cases hs
    | some j => exact ⟨j, rfl⟩
  · intro h1 h2 h3 h4
    have hc1 : (claimRenderTaskFallback wid tasks).1 = none := by
      rw [claimRender_none wid h1]
    have hc2 : (claimEditTaskFallback edits).1 = none := by
      rw [claimEdit_none h2]
    have hc3 : (claimAiShortJob jobs).1 = none := by
      rw [claimAi_none h3]
    have hc4 : (claimDiscoverJob jobs).1 = none := by
      rw [claimDiscover_none h4]
    simp only [pollForWork, hc1, hc2, hc3, hc4]
    exact ⟨trivial, trivial, trivial, trivial⟩

/-- Witness for C5: with one queued render task and empty other queues, the
tick claims the render task and leaves the edit store untouched. -/
theorem poll_priority_order_witness :
    ∃ t, (pollForWork "w-1" (.ok "u") (.ok "u") [] [] (.ok ()) [taskA] [] []).claimed =
        some (ClaimKind.renderT t) ∧
      (pollForWork "w-1" (.ok "u") (.ok "u") [] [] (.ok ()) [taskA] [] []).edits = [] :=
  (poll_priority_order "w-1" (.ok "u") (.ok "u") [] [] (.ok ()) [taskA] [] []).1
    (by decide)

/-- C7: the timed-retry step first reverts the worker's own record to ready
and then attempts to reclaim that same record (with no interference the
reclaim succeeds); when the reclaim is lost, the step inspects the record's
current status and abstains if it is processing (another worker owns it) or
done/failed (already resolved), and defensively marks the record failed when
it is unexpectedly still ready/queued after the wait. -/
theorem ai_retry_reclaim (attempt jid : Nat) (interfere : List Rec → List Rec)
    (jobs jobs2 : List Rec)
    (hdef : jobs2 =
      interfere (updateById jid (fun r => { r with status := Status.ready }) jobs))
    (hnd : (jobs2.map (fun r => r.id)).Nodup) :
    ((findRec jid jobs).isSome →
      statusOf jid (updateById jid (fun r => { r with status := Status.ready }) jobs) =
        some Status.ready) ∧
    ((findRec jid jobs).isSome →
      ((aiShortRetryReclaim attempt jid id jobs).1).isSome) ∧
    (statusOf jid jobs2 = some Status.processing →
      aiShortRetryReclaim attempt jid interfere jobs = (none, jobs2)) ∧
    (statusOf jid jobs2 = some Status.done →
      aiShortRetryReclaim attempt jid interfere jobs = (none, jobs2)) ∧
    (statusOf jid jobs2 = some Status.failed →
      aiShortRetryReclaim attempt jid interfere jobs = (none, jobs2)) ∧
    (statusOf jid jobs2 = some Status.queued →
      aiShortRetryReclaim attempt jid interfere jobs =
        (none, markFailed jid
          ("Worker retry failed: job in unexpected state after " ++
            toString attempt ++ " attempts") jobs2)) := by
  have hlost : ∀ (st : Status), st ≠ Status.ready → statusOf jid jobs2 = some st →
      (casUpdate jid Status.ready
        (fun r => { r with status := Status.processing }) jobs2).1 = none := by
    intro st hne hst
    apply casUpdate_eq_none
    intro r hm hc
    have h2 := row_unique_status hnd hst r hm hc.1
    rw [h2] at hc
    exact hne hc.2
  have hred : ∀ (st : Status), st ≠ Status.ready → statusOf jid jobs2 = some st →
      aiShortRetryReclaim attempt jid interfere jobs =
        (match statusOf jid jobs2 with
          | some Status.processing => (none, jobs2)
          | some Status.done => (none, jobs2)
          | some Status.failed => (none, jobs2)
          | _ => (none, markFailed jid
              ("Worker retry failed: job in unexpected state after " ++
                toString attempt ++ " attempts") jobs2)) := by
    intro st hne hst
    simp only [aiShortRetryReclaim]
    rw [← hdef, hlost st hne hst]
  refine ⟨?_, ?_, ?_, ?_, ?_, ?_⟩
  · intro hs
    cases hf : findRec jid jobs with
    | none => rw [hf] at hs; cases hs
    | some r =>
      simp only [statusOf]
      rw [findRec_updateById_self (f := fun r => { r with status := Status.ready })
        (fun x => rfl) hf]
      rfl
  · intro hs
    cases hf : findRec jid jobs with
    | none => rw [hf] at hs; cases hs
    | some r =>
      simp only [aiShortRetryReclaim, id]
      have hf1 : findRec jid
          (updateById jid (fun r => { r with status := Status.ready }) jobs) =
          some { r with status := Status.ready } :=
        findRec_updateById_self (f := fun r => { r with status := Status.ready })
          (fun x => rfl) hf
      obtain ⟨hm1, hid1⟩ := findRec_mem hf1
      have hsome := casUpdate_isSome
        (f := fun r => { r with status := Status.processing })
        ⟨{ r with status := Status.ready }, hm1, hid1, rfl⟩
      cases hc : (casUpdate jid Status.ready
          (fun r => { r with status := Status.processing })
          (updateById jid (fun r => { r with status := Status.ready }) jobs)).1 with
      | none => rw [hc] at hsome; cases hsome
      | some c => rfl
  · intro hst
    rw [hred Status.processing (by simp) hst, hst]
  · intro hst
    rw [hred Status.done (by simp) hst, hst]
  · intro hst
    rw [hred Status.failed (by simp) hst, hst]
  · intro hst
    rw [hred Status.queued (by simp) hst, hst]

/-- Witness for C7: the worker reverts job 7, another worker finishes it
during the backoff (interference replaces the store with the done row), the
reclaim is lost, and the step abstains, leaving the done row untouched. -/
theorem ai_retry_reclaim_witness :
    aiShortRetryReclaim 2 7 (fun _ => [jobDone7]) [jobAClaimed] =
      (none, [jobDone7]) :=
  (ai_retry_reclaim 2 7 (fun _ => [jobDone7]) [jobAClaimed] [jobDone7]
    (by rfl) (by decide)).2.2.2.1 (by rfl)

/-- C10: `currentJobId` discipline.  The discover and AI-short handlers
assign `currentJobId` exactly twice — the claimed job's id on entry, null on
exit — on every outcome path; a poll tick's assignment sequence is either
empty (nothing claimed, or a render/edit task claimed: those handlers never
touch `currentJobId`) or is the entry/exit pair of the claimed discover or
AI-short job; and the termination-signal release step with no held id writes
nothing, so an in-flight render or edit task is never released on shutdown. -/
theorem current_job_id_discipline :
    (∀ (j : Rec) (o : Except String Unit) (jobs : List Rec),
      (processDiscoverJob j o jobs).2 = [some j.id, none]) ∧
    (∀ (j : Rec) (outcomes : List AiOutcome) (ints : List (List Rec → List Rec))
        (jobs : List Rec),
      (processAiShortJob j outcomes ints jobs).2.2 = [some j.id, none]) ∧
    (∀ (wid : String) (renv eenv : ROutcome) (aiOut : List AiOutcome)
        (aiInt : List (List Rec → List Rec)) (denv : Except String Unit)
        (tasks edits jobs : List Rec),
      (pollForWork wid renv eenv aiOut aiInt denv tasks edits jobs).trace = [] ∨
      ∃ j, ((pollForWork wid renv eenv aiOut aiInt denv tasks edits jobs).claimed =
              some (ClaimKind.aiJob j) ∨
            (pollForWork wid renv eenv aiOut aiInt denv tasks edits jobs).claimed =
              some (ClaimKind.discovery j)) ∧
        (pollForWork wid renv eenv aiOut aiInt denv tasks edits jobs).trace =
          [some j.id, none]) ∧
    (∀ jobs : List Rec, sigtermRelease none jobs = jobs) := by
  refine ⟨?_, ?_, ?_, ?_⟩
  · intro j o jobs
    cases o <;> rfl
  · intro j outcomes ints jobs
    rfl
  · intro wid renv eenv aiOut aiInt denv tasks edits jobs
    simp only [pollForWork]
    cases hc : (claimRenderTaskFallback wid tasks).1 with
    | some t => left; rfl
    | none =>
      cases hce : (claimEditTaskFallback edits).1 with
      | some e => left; rfl
      | none =>
        cases hca : (claimAiShortJob jobs).1 with
        | some j => right; exact ⟨j, Or.inl rfl, rfl⟩
        | none =>
          cases hcd : (claimDiscoverJob jobs).1 with
          | some j =>
            right
            cases denv <;> exact ⟨j, Or.inr rfl, rfl⟩
          | none => left; rfl
  · intro jobs
    rfl

/-- Witness for the amended C4: a claimed render task with no clip_url is
failed at once with attempts left at 1 and the validation error text set. -/
theorem validation_failure_amended_witness :
    statusOf taskNoClip.id
        (processRenderTask taskNoClip (.ok "unused") [taskNoClip] []).1 =
      some Status.failed ∧
    attemptsOf taskNoClip.id
        (processRenderTask taskNoClip (.ok "unused") [taskNoClip] []).1 =
      some taskNoClip.attempts ∧
    errorOf taskNoClip.id
        (processRenderTask taskNoClip (.ok "unused") [taskNoClip] []).1 =
      some (some "No clip_url provided in task input") :=
  validation_failure_amended.2.1 taskNoClip (.ok "unused") [taskNoClip] [] taskNoClip
    (by rfl) (by rfl)

lemma attemptsOf_updateById {f : Rec → Rec} (hid : ∀ r, (f r).id = r.id)
    (hat : ∀ r, (f r).attempts = r.attempts) (jid tgt : Nat) (l : List Rec) :
    attemptsOf jid (updateById tgt f l) = attemptsOf jid l := by
  unfold attemptsOf
  rw [findRec_updateById hid jid tgt l]
  by_cases h : jid = tgt
  · rw [if_pos h]
    cases findRec jid l <;> simp [hat]
  · rw [if_neg h]

lemma attemptsOf_casUpdate {f : Rec → Rec} (hid : ∀ r, (f r).id = r.id)
    (hat : ∀ r, (f r).attempts = r.attempts) (jid tgt : Nat) (exp : Status)
    (l : List Rec) :
    attemptsOf jid (casUpdate tgt exp f l).2 = attemptsOf jid l := by
  unfold attemptsOf
  rw [findRec_casUpdate hid jid tgt exp l]
  by_cases h : jid = tgt
  · rw [if_pos h]
    cases findRec jid l with
    | none => rfl
    | some r =>
      simp only [Option.map_some']
      split <;> simp [hat]
  · rw [if_neg h]

lemma processRenderTask_attempts (c : Rec) (o : ROutcome) (tasks jobs : List Rec)
    (jid : Nat) :
    attemptsOf jid (processRenderTask c o tasks jobs).1 = attemptsOf jid tasks := by
  cases hcl : c.clip_url with
  | none =>
    simp only [processRenderTask, hcl, failTask]
    apply attemptsOf_updateById <;> intro x <;> rfl
  | some u =>
    cases o with
    | ok url =>
      simp only [processRenderTask, hcl]
      apply attemptsOf_updateById <;> intro x <;> rfl
    | err msg =>
      simp only [processRenderTask, hcl]
      by_cases hlt : c.attempts < 3
      · rw [if_pos hlt]
        apply attemptsOf_updateById <;> intro x <;> rfl
      · rw [if_neg hlt]
        simp only [failTask]
        apply attemptsOf_updateById <;> intro x <;> rfl

lemma InvR_updateById {f : Rec → Rec} {tgt : Nat} {l : List Rec}
    (hid : ∀ r, (f r).id = r.id)
    (hb : ∀ r, r ∈ l → r.id = tgt →
      (f r).attempts ≤ 3 ∧ ((f r).status = .queued → (f r).attempts < 3))
    (hInv : InvR l) : InvR (updateById tgt f l) := by
  constructor
  · rw [map_id_updateById hid]
    exact hInv.1
  · intro x hx
    rcases mem_updateById hx with hold | ⟨r, hm, hidr, hxe⟩
    · exact hInv.2 x hold
    · rw [hxe]
      exact hb r hm hidr

lemma InvR_casUpdate {f : Rec → Rec} {tgt : Nat} {exp : Status} {l : List Rec}
    (hid : ∀ r, (f r).id = r.id)
    (hb : ∀ r, r ∈ l → r.id = tgt → r.status = exp →
      (f r).attempts ≤ 3 ∧ ((f r).status = .queued → (f r).attempts < 3))
    (hInv : InvR l) : InvR (casUpdate tgt exp f l).2 := by
  constructor
  · rw [map_id_casUpdate hid]
    exact hInv.1
  · intro x hx
    rcases mem_casUpdate_snd hx with hold | ⟨r, hm, hidr, hst, hxe⟩
    · exact hInv.2 x hold
    · rw [hxe]
      exact hb r hm hidr hst

lemma aiReclaim_attempts (jid' attempt jid : Nat) (jobs : List Rec) :
    attemptsOf jid' (aiShortRetryReclaim attempt jid id jobs).2 =
      attemptsOf jid' jobs := by
  have hu : attemptsOf jid'
      (updateById jid (fun r => { r with status := Status.ready }) jobs) =
      attemptsOf jid' jobs := by
    apply attemptsOf_updateById <;> intro x <;> rfl
  have hcas : attemptsOf jid'
      (casUpdate jid Status.ready (fun r => { r with status := Status.processing })
        (updateById jid (fun r => { r with status := Status.ready }) jobs)).2 =
      attemptsOf jid' jobs := by
    rw [← hu]
    apply attemptsOf_casUpdate <;> intro x <;> rfl
  have hmf : ∀ (msg : String),
      attemptsOf jid' (markFailed jid msg
        (updateById jid (fun r => { r with status := Status.ready }) jobs)) =
      attemptsOf jid' jobs := by
    intro msg
    rw [← hu]
    simp only [markFailed]
    apply attemptsOf_updateById <;> intro x <;> rfl
  simp only [aiShortRetryReclaim, id_eq]
  cases hp : (casUpdate jid Status.ready
      (fun r => { r with status := Status.processing })
      (updateById jid (fun r => { r with status := Status.ready }) jobs)).1 with
  | some c => exact hcas
  | none =>
    cases hst : statusOf jid
        (updateById jid (fun r => { r with status := Status.ready }) jobs) with
    | none => exact hmf _
    | some st =>
      cases st <;> first | exact hu | exact hmf _

lemma ai_aux_attempts (jid' : Nat) :
    ∀ (outcomes : List AiOutcome) (jid attempt : Nat) (jobsX : List Rec),
      attemptsOf jid' (processAiShortJobAux jid attempt outcomes [] jobsX).1 =
        attemptsOf jid' jobsX := by
  intro outcomes
  induction outcomes with
  | nil => intro jid attempt jobsX; rfl
  | cons o rest ih =>
    intro jid attempt jobsX
    cases o with
    | ok url =>
      simp only [processAiShortJobAux, markDone]
      apply attemptsOf_updateById <;> intro x <;> rfl
    | err isVal msg =>
      simp only [processAiShortJobAux]
      by_cases hb : (isVal || decide (maxAttempts ≤ attempt)) = true
      · rw [if_pos hb]
        simp only [markFailed]
        apply attemptsOf_updateById <;> intro x <;> rfl
      · rw [if_neg hb]
        simp only [List.headD_nil, List.tail_nil]
        cases hp : (aiShortRetryReclaim attempt jid id jobsX).1 with
        | some c =>
          rw [ih jid (attempt + 1) _]
          exact aiReclaim_attempts jid' attempt jid jobsX
        | none =>
          exact aiReclaim_attempts jid' attempt jid jobsX

/-- C9: attempts accounting of the render-task operations: one worker step
(claim via the fallback form, then processing with any outcome) preserves the
table invariant that attempts never exceed the maximum of 3 — and a
still-claimable (queued) row always has a claim left in budget — and the
attempts counter of every row is non-decreasing across the step; the AI-short
loop never writes any record's attempts field at all. -/
theorem render_attempts_bound :
    (∀ (wid : String) (o : ROutcome) (tasks jobs : List Rec),
      InvR tasks → InvR (renderTick wid o tasks jobs).1) ∧
    (∀ (wid : String) (o : ROutcome) (tasks jobs : List Rec) (jid a : Nat),
      InvR tasks → attemptsOf jid tasks = some a →
      ∃ b, attemptsOf jid (renderTick wid o tasks jobs).1 = some b ∧ a ≤ b) ∧
    (∀ (jid' jid attempt : Nat) (outcomes : List AiOutcome) (jobsX : List Rec),
      attemptsOf jid' (processAiShortJobAux jid attempt outcomes [] jobsX).1 =
        attemptsOf jid' jobsX) := by
  refine ⟨?_, ?_, ?_⟩
  · intro wid o tasks jobs hInv
    simp only [renderTick]
    cases hc : (claimRenderTaskFallback wid tasks).1 with
    | none => exact hInv
    | some c =>
      have hpair := (Prod.mk.eta (p := claimRenderTaskFallback wid tasks)).symm
      rw [hc] at hpair
      obtain ⟨r, hm, hq, hcEq, hsndEq, hmin⟩ :=
        claimRenderTaskFallback_some hInv.1 hpair
      rw [hsndEq]
      have hrlt : r.attempts < 3 := (hInv.2 r hm).2 hq
      have hInv1 : InvR (casUpdate r.id .queued
          (fun x => { x with status := Status.rendering, worker_id := some wid,
                             attempts := r.attempts + 1 }) tasks).2 := by
        refine InvR_casUpdate ?_ ?_ hInv
        · intro x
          rfl
        · intro x hxm hxid hxst
          refine ⟨?_, ?_⟩
          · show r.attempts + 1 ≤ 3
            omega
          · intro habs
            simp at habs
      have hnd1 : (((casUpdate r.id .queued
          (fun x => { x with status := Status.rendering, worker_id := some wid,
                             attempts := r.attempts + 1 }) tasks).2).map
            (fun r => r.id)).Nodup := by
        have hmap : (((casUpdate r.id .queued
            (fun x => { x with status := Status.rendering, worker_id := some wid,
                               attempts := r.attempts + 1 }) tasks).2).map
              (fun r => r.id)) = tasks.map (fun r => r.id) := by
          apply map_id_casUpdate
          intro x
          rfl
        rw [hmap]
        exact hInv.1
      have hfind1 : findRec c.id (casUpdate r.id .queued
          (fun x => { x with status := Status.rendering, worker_id := some wid,
                             attempts := r.attempts + 1 }) tasks).2 = some c := by
        have hcid : c.id = r.id := by rw [hcEq]
        rw [hcid]
        rw [findRec_casUpdate
          (f := fun x => { x with status := Status.rendering, worker_id := some wid,
                                  attempts := r.attempts + 1 })
          (fun x => rfl) r.id r.id Status.queued tasks, if_pos rfl]
        rw [findRec_of_mem_nodup hInv.1 hm]
        simp only [Option.map_some']
        rw [if_pos hq, hcEq]
      cases hcl : c.clip_url with
      | none =>
        simp only [processRenderTask, hcl, failTask]
        refine InvR_updateById ?_ ?_ hInv1
        · intro x
          rfl
        · intro x hxm hxid
          refine ⟨(hInv1.2 x hxm).1, ?_⟩
          intro habs
          simp at habs
      | some u =>
        cases o with
        | ok url =>
          simp only [processRenderTask, hcl]
          refine InvR_updateById ?_ ?_ hInv1
          · intro x
            rfl
          · intro x hxm hxid
            refine ⟨(hInv1.2 x hxm).1, ?_⟩
            intro habs
            simp at habs
        | err msg =>
          simp only [processRenderTask, hcl]
          by_cases hlt : c.attempts < 3
          · rw [if_pos hlt]
            refine InvR_updateById ?_ ?_ hInv1
            · intro x
              rfl
            · intro x hxm hxid
              have hcmem := (findRec_mem hfind1).1
              have hxc : x = c :=
                List.inj_on_of_nodup_map hnd1 hxm hcmem (by rw [hxid])
              rw [hxc]
              refine ⟨?_, fun _ => hlt⟩
              show c.attempts ≤ 3
              omega
          · rw [if_neg hlt]
            simp only [failTask]
            refine InvR_updateById ?_ ?_ hInv1
            · intro x
              rfl
            · intro x hxm hxid
              refine ⟨(hInv1.2 x hxm).1, ?_⟩
              intro habs
              simp at habs
  · intro wid o tasks jobs jid a hInv ha
    simp only [renderTick]
    cases hc : (claimRenderTaskFallback wid tasks).1 with
    | none => exact ⟨a, ha, Nat.le_refl a⟩
    | some c =>
      have hpair := (Prod.mk.eta (p := claimRenderTaskFallback wid tasks)).symm
      rw [hc] at hpair
      obtain ⟨r, hm, hq, hcEq, hsndEq, hmin⟩ :=
        claimRenderTaskFallback_some hInv.1 hpair
      rw [hsndEq, processRenderTask_attempts]
      have hfr0 : findRec r.id tasks = some r := findRec_of_mem_nodup hInv.1 hm
      by_cases hj : jid = r.id
      · have ha2 : a = r.attempts := by
          rw [hj] at ha
          simp only [attemptsOf, hfr0, Option.map_some'] at ha
          exact (Option.some.inj ha).symm
        refine ⟨r.attempts + 1, ?_, by omega⟩
        simp only [attemptsOf]
        rw [hj, findRec_casUpdate
          (f := fun x => { x with status := Status.rendering, worker_id := some wid,
                                  attempts := r.attempts + 1 })
          (fun x => rfl) r.id r.id Status.queued tasks, if_pos rfl, hfr0]
        simp only [Option.map_some']
        rw [if_pos hq]
      · refine ⟨a, ?_, Nat.le_refl a⟩
        simp only [attemptsOf]
        rw [findRec_casUpdate
          (f := fun x => { x with status := Status.rendering, worker_id := some wid,
                                  attempts := r.attempts + 1 })
          (fun x => rfl) jid r.id Status.queued tasks, if_neg hj]
        simpa [attemptsOf] using ha
  · intro jid' jid attempt outcomes jobsX
    exact ai_aux_attempts jid' outcomes jid attempt jobsX

/-- Witness for C9: one render step on a single fresh queued task (which
satisfies the table invariant) with a retryable failure: the invariant still
holds afterwards and the task's attempts went from 0 to 1. -/
theorem render_attempts_bound_witness :
    InvR (renderTick "w-1" (.err "boom") [taskA] []).1 ∧
    ∃ b, attemptsOf 1 (renderTick "w-1" (.err "boom") [taskA] []).1 = some b ∧
      0 ≤ b := by
  constructor
  · exact render_attempts_bound.1 "w-1" (.err "boom") [taskA] []
      ⟨by decide, by decide⟩
  · exact render_attempts_bound.2.1 "w-1" (.err "boom") [taskA] [] 1 0
      ⟨by decide, by decide⟩ (by rfl)

end Clipflow
